import Mathlib

/-!
Verification of the recommendation-engine models (collaborative filter,
content-based filter, hybrid merge layer) of the repository.

The Python code is shallowly embedded: interaction records and media items
become structures over `String` and `ℚ`; score arithmetic (exact in the
source up to floating point) is carried out in `ℚ`; the similarity values
produced by cosine similarity, which involve square roots, live in `ℝ`.
The numpy value `-inf`, used only as a ranking mask, is represented by
`⊥ : WithBot ℚ`.
-/

namespace RecEngine

/-- Embeds the `Interaction` dataclass of `src/database.py`: one user-media
interaction record; `rating` is the optional explicit rating. -/
structure Interaction where
  user_id : String
  media_id : String
  interaction_type : String
  rating : Option ℚ
deriving DecidableEq, Repr

/-- Embeds the `MediaItem` dataclass of `src/database.py`. -/
structure MediaItem where
  id : String
  title : String
  genres : String
  community_rating : Option ℚ
  media_type : String
deriving DecidableEq, Repr

/-- Embeds the `INTERACTION_WEIGHTS` dictionary of `collaborative.py`:
interaction types mapped to implicit rating signals ("rate" is present in
the dictionary with weight 0, its weight being ignored when an explicit
rating is available). `none` plays the role of a missing dictionary key. -/
def INTERACTION_WEIGHTS : String → Option ℚ := fun t =>
  if t = "watch" then some 1
  else if t = "completed" then some (3/2)
  else if t = "like" then some 2
  else if t = "dislike" then some (-1)
  else if t = "add_to_watchlist" then some (1/2)
  else if t = "skip" then some (-1/2)
  else if t = "rate" then some 0
  else none

/-- Embeds the score resolution of `build_matrix` (collaborative.py lines
117-121): an explicit rating is normalized as rating / 5.0; otherwise the
weight table is consulted with default 0.5. -/
def resolvedScore (it : Interaction) : ℚ :=
  match it.rating with
  | some r => if it.interaction_type = "rate" then r / 5
              else (INTERACTION_WEIGHTS it.interaction_type).getD (1/2)
  | none => (INTERACTION_WEIGHTS it.interaction_type).getD (1/2)

/-- Modelled from the spec: the score-resolution rule exactly as the claim
states it, for comparison with `resolvedScore`. The claim's fixed lookup
table lists only the six implicit kinds (watch, completed, like, dislike,
add_to_watchlist, skip); every kind outside it defaults to 0.5, and only an
interaction that actually carries a rating resolves to rating / 5.0. -/
def specResolvedScore (it : Interaction) : ℚ :=
  match it.rating with
  | some r => if it.interaction_type = "rate" then r / 5 else specWeight it.interaction_type
  | none => specWeight it.interaction_type
where
  specWeight : String → ℚ := fun t =>
    if t = "watch" then 1
    else if t = "completed" then 3/2
    else if t = "like" then 2
    else if t = "dislike" then -1
    else if t = "add_to_watchlist" then 1/2
    else if t = "skip" then -1/2
    else 1/2

/-- Embeds a Python dict built by insertion in encounter order: the distinct
elements of a list, each kept at its first occurrence. -/
def dedupKeepFirst {α : Type} [DecidableEq α] : List α → List α
  | [] => []
  | x :: xs => x :: (dedupKeepFirst xs).filter (fun y => y ≠ x)

/-- Distinct user ids of an interaction list in first-seen order: the key
order of the `users` dict of `build_matrix`. -/
def userIds (l : List Interaction) : List String :=
  dedupKeepFirst (l.map (fun it => it.user_id))

/-- Distinct media ids of an interaction list in first-seen order: the key
order of the `items` dict of `build_matrix`. -/
def itemIds (l : List Interaction) : List String :=
  dedupKeepFirst (l.map (fun it => it.media_id))

/-- Index of the first occurrence of an id in a key list: the value
`users[id]` assigned by `build_matrix` (ids get index `len(users)` when
first seen, so the dict maps each id to its first-seen position). -/
def idIndex : List String → String → Option ℕ
  | [], _ => none
  | x :: xs, s => if x = s then some 0 else (idIndex xs s).map (fun i => i + 1)

/-- Embeds the `score_map` accumulation of `build_matrix` (lines 111-125)
at one (user, item) key: fold over the interactions, keeping the maximum
resolved score for the key, `none` when no interaction matches. -/
def cellOpt (l : List Interaction) (uid mid : String) : Option ℚ :=
  l.foldl
    (fun acc it =>
      if it.user_id = uid ∧ it.media_id = mid then
        some (match acc with
              | none => resolvedScore it
              | some s => max s (resolvedScore it))
      else acc)
    none

/-- Resolved scores of all interactions of one user on one item, in order. -/
def scoresFor (l : List Interaction) (uid mid : String) : List ℚ :=
  (l.filter (fun it => it.user_id = uid ∧ it.media_id = mid)).map resolvedScore

/-- Value of the sparse user-item matrix at an index pair: the score kept in
`score_map`, with absent cells reading 0. -/
def collabMatrix (l : List Interaction) (u i : ℕ) : ℚ :=
  match (userIds l).get? u, (itemIds l).get? i with
  | some uid, some mid => (cellOpt l uid mid).getD 0
  | _, _ => none.getD 0

/-- Embeds Python's round-half-to-even on an exact rational. -/
def roundHalfEven (q : ℚ) : ℤ :=
  if q - ⌊q⌋ < 1/2 then ⌊q⌋
  else if 1/2 < q - ⌊q⌋ then ⌊q⌋ + 1
  else if Even ⌊q⌋ then ⌊q⌋ else ⌊q⌋ + 1

/-- Embeds `round(x, 4)` as used on every score the service returns. -/
def round4 (q : ℚ) : ℚ :=
  (roundHalfEven (q * 10000) : ℚ) / 10000

/-- Embeds `MAX_SIMILAR_USERS` of collaborative.py. -/
def MAX_SIMILAR_USERS : ℕ := 50

/-- Embeds `MIN_USER_INTERACTIONS` of collaborative.py. -/
def MIN_USER_INTERACTIONS : ℕ := 2

/-- Stable descending sort by a key, as Python's stable `list.sort` with
`reverse=True` and numpy's descending argsort produce: `insertionSort` with
the relation "my key is at least yours" keeps the original order of
elements with equal keys. -/
def sortDescBy {α β : Type} [LinearOrder β] (key : α → β) (l : List α) : List α :=
  List.insertionSort (fun a b => key b ≤ key a) l

/-- Inputs of `predict_for_user` (collaborative.py lines 200-281), read off
the model state it consults: the built flag, the optional user-user
similarity matrix (`none` before `compute_user_similarity` has run), the
index of the requested user in the user mapping (`none` for an unknown
user), the matrix dimensions, the user-item matrix and the item mapping. -/
structure PredictIn where
  isBuilt : Bool
  sim : Option (ℕ → ℕ → ℚ)
  uIdx : Option ℕ
  nU : ℕ
  nI : ℕ
  M : ℕ → ℕ → ℚ
  idxToItem : ℕ → String

/-- Similarity row read by `predict_for_user`; the default is irrelevant:
every use is guarded by `sim` being present. -/
def simF (P : PredictIn) : ℕ → ℕ → ℚ := P.sim.getD (fun _ _ => 0)

/-- User index read by `predict_for_user`; the default is irrelevant: every
use is guarded by `uIdx` being present. -/
def uIdxD (P : PredictIn) : ℕ := P.uIdx.getD 0

/-- Embeds `nonzero_mask` / `candidate_indices` before truncation: the user
indices whose similarity to the target is strictly positive (line 235). -/
def nonzeroIdx (P : PredictIn) : List ℕ :=
  (List.range P.nU).filter (fun v => 0 < simF P (uIdxD P) v)

/-- Embeds the top-K truncation of the candidate set (lines 240-244): when
more than `MAX_SIMILAR_USERS` candidates exist, keep the
`MAX_SIMILAR_USERS` of largest similarity (partial selection, rendered here
as a descending sort followed by a take). -/
def cands (P : PredictIn) : List ℕ :=
  if MAX_SIMILAR_USERS < (nonzeroIdx P).length then
    (sortDescBy (fun v => simF P (uIdxD P) v) (nonzeroIdx P)).take MAX_SIMILAR_USERS
  else nonzeroIdx P

/-- Embeds `sim_total = sim_subset.sum()` (line 255). -/
def simTotal (P : PredictIn) : ℚ :=
  ((cands P).map (fun v => simF P (uIdxD P) v)).sum

/-- Embeds the weighted-average prediction (lines 250-259): per item, the
similarity-weighted sum of the selected neighbours' scores divided by the
sum of the selected similarities. -/
def predicted (P : PredictIn) (i : ℕ) : ℚ :=
  ((cands P).map (fun v => simF P (uIdxD P) v * P.M v i)).sum / simTotal P

/-- Embeds the negative-infinity masking of already-interacted items
(lines 262-264): an item with a nonzero entry in the target user's own row
reads `⊥`, every other item its predicted score. -/
def maskedScore (P : PredictIn) (i : ℕ) : WithBot ℚ :=
  if P.M (uIdxD P) i ≠ 0 then ⊥ else (predicted P i : WithBot ℚ)

/-- Embeds the top-N index selection of lines 267-271: all item indices in
descending masked-score order; the full order when `n` covers all items,
otherwise the first `n` of it, except that `n = 0` degenerates to the full
order because the Python slice `[-0:]` keeps the whole array. -/
def topIdx (P : PredictIn) (n : ℕ) : List ℕ :=
  let sortedIdx := sortDescBy (maskedScore P) (List.range P.nI)
  if P.nI ≤ n then sortedIdx
  else if n = 0 then sortedIdx
  else sortedIdx.take n

/-- Item indices `predict_for_user` emits: the early-exit guards of lines
217-226, 236-237 and 256-257 give the empty list; otherwise the selected
indices are scanned in order and the scan breaks at the first score that is
non-positive or infinite (lines 273-277). -/
def predictIdx (P : PredictIn) (n : ℕ) : List ℕ :=
  if ¬P.isBuilt ∨ P.sim.isNone ∨ P.uIdx.isNone
      ∨ nonzeroIdx P = [] ∨ simTotal P = 0 then []
  else (topIdx P n).takeWhile (fun i => (0 : WithBot ℚ) < maskedScore P i)

/-- Embeds `predict_for_user`: the emitted indices rendered as
(media id, score rounded to 4 places) pairs (lines 273-281). -/
def predictForUser (P : PredictIn) (n : ℕ) : List (String × ℚ) :=
  (predictIdx P n).map (fun i => (P.idxToItem i, round4 (predicted P i)))

/-- State of a `CollaborativeFilter` instance: the two mappings (as key
lists in index order), the user-item matrix, the optional similarity matrix
and the built flag. -/
structure CFState where
  users : List String
  items : List String
  M : ℕ → ℕ → ℚ
  similarity : Option (ℕ → ℕ → ℚ)
  isBuilt : Bool

/-- State created by `CollaborativeFilter.__init__`. -/
def initCF : CFState :=
  { users := [], items := [], M := fun _ _ => 0, similarity := none, isBuilt := false }

/-- Embeds `build_matrix` at the state level (lines 76-147): an empty input
only clears the built flag and returns (lines 85-88); otherwise the
mappings, the matrix and the built flag are rebuilt and the previous
similarity is invalidated. -/
def buildMatrixS (s : CFState) (l : List Interaction) : CFState :=
  if l = [] then { s with isBuilt := false }
  else
    { users := userIds l
      items := itemIds l
      M := collabMatrix l
      similarity := none
      isBuilt := true }

/-- Embeds the `user_count` property. -/
def userCount (s : CFState) : ℕ := s.users.length

/-- Embeds the `item_count` property. -/
def itemCount (s : CFState) : ℕ := s.items.length

/-- Embeds `predict_for_user` as invoked on a model state. -/
def predictS (s : CFState) (uid : String) (n : ℕ) : List (String × ℚ) :=
  predictForUser
    { isBuilt := s.isBuilt
      sim := s.similarity
      uIdx := idIndex s.users uid
      nU := s.users.length
      nI := s.items.length
      M := s.M
      idxToItem := fun i => (s.items.get? i).getD "" } n

/-- Cosine similarity of two rational feature rows of width `d`, valued in
`ℝ` as sklearn's `cosine_similarity` computes it: the dot product over the
product of Euclidean norms, with a zero row yielding similarity 0 (sklearn
substitutes norm 1 for a zero norm, which gives the same value). -/
noncomputable def cosineSim (x y : ℕ → ℚ) (d : ℕ) : ℝ :=
  if Real.sqrt (∑ k ∈ Finset.range d, (x k : ℝ) ^ 2) = 0 ∨
      Real.sqrt (∑ k ∈ Finset.range d, (y k : ℝ) ^ 2) = 0 then 0
  else (∑ k ∈ Finset.range d, (x k : ℝ) * (y k : ℝ)) /
    (Real.sqrt (∑ k ∈ Finset.range d, (x k : ℝ) ^ 2) *
      Real.sqrt (∑ k ∈ Finset.range d, (y k : ℝ) ^ 2))

/-- Number of stored entries in one user's row of the sparse matrix: the
per-row count `np.diff(indptr)` reads in `compute_user_similarity` (one
stored entry per distinct (user, item) pair of the input, explicit zeros
included). -/
def storedRowCount (l : List Interaction) (uid : String) : ℕ :=
  ((dedupKeepFirst (l.map (fun it => (it.user_id, it.media_id)))).filter
    (fun p => p.1 = uid)).length

/-- Low-interaction test of `compute_user_similarity`: a user index is
masked out when its row holds fewer than `MIN_USER_INTERACTIONS` stored
entries (an out-of-range index reads as masked; it indexes no row). -/
def belowMin (l : List Interaction) (u : ℕ) : Bool :=
  match (userIds l).get? u with
  | none => true
  | some uid => storedRowCount l uid < MIN_USER_INTERACTIONS

/-- Embeds the `mask.sum() == 0` early return of `compute_user_similarity`
(lines 174-178): every user is below the interaction threshold. -/
def allBelowMin (l : List Interaction) : Bool :=
  (List.range (userIds l).length).all (fun u => belowMin l u)

/-- Embeds the user-user similarity matrix `compute_user_similarity`
produces from an interaction list (lines 153-194): all-zero when every user
is low-interaction; otherwise cosine similarity of the matrix rows with the
diagonal zeroed (line 186) and the rows and columns of low-interaction
users zeroed (lines 189-192). -/
noncomputable def userSim (l : List Interaction) (u v : ℕ) : ℝ :=
  if allBelowMin l then 0
  else if u = v then 0
  else if belowMin l u ∨ belowMin l v then 0
  else cosineSim (fun i => collabMatrix l u i) (fun i => collabMatrix l v i)
    (itemIds l).length

/-- Embeds the item-item similarity matrix `compute_item_similarity`
(content_based.py lines 144-165) produces from an item-feature matrix `F`
of width `d`: pairwise cosine similarity with the diagonal zeroed. The
TF-IDF vectorization itself happens inside sklearn; the claims consume only
the nonnegativity of its output, so the feature matrix is a parameter. -/
noncomputable def itemSimF (F : ℕ → ℕ → ℚ) (d : ℕ) (i j : ℕ) : ℝ :=
  if i = j then 0 else cosineSim (F i) (F j) d

/-- Index of the last occurrence of an element in a list: the value a dict
holds after the assignment loop of `build_feature_matrix` (content_based.py
lines 108-110), where a repeated id overwrites its earlier index. -/
def lastIndex {α : Type} [DecidableEq α] : List α → α → Option ℕ
  | [], _ => none
  | x :: xs, s =>
    match lastIndex xs s with
    | some j => some (j + 1)
    | none => if x = s then some 0 else none

/-- Embeds the `_item_to_idx` dict of `ContentBasedFilter` built from a
catalogue list: each media id maps to the index of its last occurrence. -/
def cbItemToIdx (items : List MediaItem) (s : String) : Option ℕ :=
  lastIndex (items.map (fun m => m.id)) s

/-- Embeds the `_idx_to_item` dict of `ContentBasedFilter`: each position
of the catalogue list maps to the id of the item stored there. -/
def cbIdxToItem (items : List MediaItem) (i : ℕ) : Option String :=
  (items.map (fun m => m.id)).get? i

/-- Inputs of `recommend_for_user` (content_based.py lines 171-236): the
built flag, the optional item-item similarity matrix and the catalogue the
mappings were built from. The similarity values only flow through ranking,
so the matrix is an abstract rational-valued parameter standing for the
computed cosine similarity. -/
structure RecIn where
  isBuilt : Bool
  sim : Option (ℕ → ℕ → ℚ)
  items : List MediaItem

/-- Similarity matrix read by `recommend_for_user`; the default is
irrelevant: every use is guarded by `sim` being present. -/
def recSimF (R : RecIn) : ℕ → ℕ → ℚ := R.sim.getD (fun _ _ => 0)

/-- Embeds `watched_indices` (lines 201-204): the watched ids resolved
through the item mapping, unknown ids skipped, in order. -/
def watchedIdx (R : RecIn) (watched : List String) : List ℕ :=
  watched.filterMap (cbItemToIdx R.items)

/-- Embeds the aggregated score (lines 214-216): the arithmetic mean over
the resolved watched items of their similarity to the candidate item. -/
def aggScore (R : RecIn) (watched : List String) (i : ℕ) : ℚ :=
  ((watchedIdx R watched).map (fun w => recSimF R w i)).sum
    / ((watchedIdx R watched).length : ℚ)

/-- Embeds the negative-infinity masking of lines 219-220: a resolved
watched index reads `⊥`, every other index its aggregated score. -/
def recMasked (R : RecIn) (watched : List String) (i : ℕ) : WithBot ℚ :=
  if i ∈ watchedIdx R watched then ⊥ else (aggScore R watched i : WithBot ℚ)

/-- Embeds the top-N index selection of lines 223-227, identical in shape
to the one of `predict_for_user` (including the `n = 0` degeneration of the
Python slice `[-0:]`). -/
def recTopIdx (R : RecIn) (watched : List String) (n : ℕ) : List ℕ :=
  let sortedIdx := sortDescBy (recMasked R watched) (List.range R.items.length)
  if R.items.length ≤ n then sortedIdx
  else if n = 0 then sortedIdx
  else sortedIdx.take n

/-- Item indices `recommend_for_user` emits: empty under the guards of
lines 191-196 and 206-207, otherwise the selected indices scanned in order
with the scan breaking at the first non-positive-or-infinite score
(lines 229-233). -/
def recIdx (R : RecIn) (watched : List String) (n : ℕ) : List ℕ :=
  if ¬R.isBuilt ∨ R.sim.isNone ∨ watched = [] ∨ watchedIdx R watched = [] then []
  else (recTopIdx R watched n).takeWhile
    (fun i => (0 : WithBot ℚ) < recMasked R watched i)

/-- Embeds `recommend_for_user`: the emitted indices rendered as
(media id, score rounded to 4 places) pairs. -/
def recommendForUser (R : RecIn) (watched : List String) (n : ℕ) :
    List (String × ℚ) :=
  (recIdx R watched n).map
    (fun i => ((cbIdxToItem R.items i).getD "", round4 (aggScore R watched i)))

/-- Minimum of a rational list as Python's `min` computes it on a nonempty
list (0 on the empty list, which the code never consults). -/
def listMin : List ℚ → ℚ
  | [] => 0
  | x :: xs => xs.foldl min x

/-- Maximum of a rational list as Python's `max` computes it on a nonempty
list (0 on the empty list, which the code never consults). -/
def listMax : List ℚ → ℚ
  | [] => 0
  | x :: xs => xs.foldl max x

/-- Embeds `HybridRecommender._normalize` (hybrid.py lines 235-252):
min-max normalization of an (id, score) list into [0, 1], with an
all-equal-score list mapped uniformly to 0.5 and the empty list returned
unchanged. -/
def normalizeScores (scores : List (String × ℚ)) : List (String × ℚ) :=
  match scores with
  | [] => []
  | _ :: _ =>
    let lo := listMin (scores.map (fun p => p.2))
    let hi := listMax (scores.map (fun p => p.2))
    if hi - lo = 0 then scores.map (fun p => (p.1, 1/2))
    else scores.map (fun p => (p.1, (p.2 - lo) / (hi - lo)))

/-- Last value a Python dict holds for a key after inserting the pairs of a
list in order, 0 when the key never occurs (the `combined` dict of
`_merge_scores` initializes both components to 0). -/
def lastVal (l : List (String × ℚ)) (id : String) : ℚ :=
  (((l.filter (fun p => p.1 = id)).getLast?).map (fun p => p.2)).getD 0

/-- Embeds one result entry of `HybridRecommender.get_recommendations`. -/
structure RecOut where
  media_id : String
  score : ℚ
  reason : String
deriving DecidableEq, Repr

/-- Embeds `HybridRecommender._merge_scores` (lines 190-233): normalize
each source into [0, 1], combine per media id with the configured weights
(the id order of the `combined` dict is first-seen across the collaborative
then the content list), choose the dominant reason, and sort descending by
combined score (Python's sort is stable). -/
def mergeScores (cfW cbW : ℚ) (cf cb : List (String × ℚ)) :
    List (String × ℚ × String) :=
  let cfN := normalizeScores cf
  let cbN := normalizeScores cb
  let keys := dedupKeepFirst (cfN.map (fun p => p.1) ++ cbN.map (fun p => p.1))
  let rows := keys.map (fun id =>
    let cfS := lastVal cfN id
    let cbS := lastVal cbN id
    (id, round4 (cfW * cfS + cbW * cbS),
      if cbS ≤ cfS then "users_like_you" else "similar_to_watched"))
  sortDescBy (fun r => r.2.1) rows

/-- Embeds the `rated_items` list of `_popularity_fallback` (hybrid.py
lines 272-277): the un-watched metadata entries paired with their rating,
an absent rating read as 0. -/
def ratedItems (metadata : List (String × Option ℚ))
    (watched : List String) : List (String × ℚ) :=
  (metadata.filter (fun p => p.1 ∉ watched)).map (fun p => (p.1, p.2.getD 0))

/-- Embeds `HybridRecommender._popularity_fallback` (lines 254-288) over
the content model's metadata rendered as an (id, optional rating) list in
dict order: drop watched items, read an absent rating as 0, sort by rating
descending, and scale the top `limit` by the top rating when it is
positive (by 1 otherwise), tagged "popular". -/
def popularityFallback (metadata : List (String × Option ℚ))
    (watched : List String) (limit : ℕ) : List (String × ℚ × String) :=
  if metadata = [] then []
  else
    match sortDescBy (fun p => p.2) (ratedItems metadata watched) with
    | [] => []
    | p0 :: tail =>
      ((p0 :: tail).take limit).map
        (fun p => (p.1, round4 (p.2 / (if 0 < p0.2 then p0.2 else 1)), "popular"))

/-- Embeds `HybridRecommender._format_results`. -/
def formatResults (l : List (String × ℚ × String)) : List RecOut :=
  l.map (fun t => { media_id := t.1, score := t.2.1, reason := t.2.2 })

/-- Inputs of `get_recommendations` (lines 102-161), read off the state and
collaborators it consults: the cached value for the user's key (`none` on a
cache miss), each sub-model's readiness and prediction function, the user's
watch history (item ids, as the history store returns them), the content
model's metadata and the configured weights. -/
structure HybridIn where
  cached : Option (List RecOut)
  cfReady : Bool
  cfPredict : ℕ → List (String × ℚ)
  cbReady : Bool
  watched : List String
  cbRecommend : List String → ℕ → List (String × ℚ)
  metadata : List (String × Option ℚ)
  cfW : ℚ
  cbW : ℚ

/-- Collaborative predictions gathered on a cache miss (lines 128-130). -/
def cfResults (H : HybridIn) (limit : ℕ) : List (String × ℚ) :=
  if H.cfReady then H.cfPredict (limit * 3) else []

/-- Content-based predictions gathered on a cache miss (lines 133-140):
consulted only when that model is ready and the watch history is
non-empty. -/
def cbResults (H : HybridIn) (limit : ℕ) : List (String × ℚ) :=
  if H.cbReady ∧ H.watched ≠ [] then H.cbRecommend H.watched (limit * 3) else []

/-- Merged list of line 143. -/
def mergedList (H : HybridIn) (limit : ℕ) : List (String × ℚ × String) :=
  mergeScores H.cfW H.cbW (cfResults H limit) (cbResults H limit)

/-- Merged list after the cold-start fallback of lines 146-147. -/
def mergedOrFallback (H : HybridIn) (limit : ℕ) : List (String × ℚ × String) :=
  if mergedList H limit = [] then popularityFallback H.metadata H.watched limit
  else mergedList H limit

/-- Embeds `get_recommendations`: the returned list paired with the value
written to the cache (`none` when nothing is written). A cache hit returns
the cached list truncated to `limit` (line 125); a miss merges, falls back,
truncates to `limit` (line 150), formats, and caches the formatted result
exactly when it is non-empty (lines 156-159). -/
def getRecs (H : HybridIn) (limit : ℕ) : List RecOut × Option (List RecOut) :=
  match H.cached with
  | some l => (l.take limit, none)
  | none =>
    let recs := formatResults ((mergedOrFallback H limit).take limit)
    (recs, if recs = [] then none else some recs)

/-! Shared lemmas about the id dictionaries. -/

theorem mem_dedupKeepFirst {α : Type} [DecidableEq α] (l : List α) (x : α) :
    x ∈ dedupKeepFirst l ↔ x ∈ l := by
  induction l with
  | nil => simp [dedupKeepFirst]
  | cons y ys ih =>
    by_cases hxy : x = y
    · simp [dedupKeepFirst, hxy]
    · simp [dedupKeepFirst, hxy, List.mem_filter, ih]

theorem nodup_dedupKeepFirst {α : Type} [DecidableEq α] (l : List α) :
    (dedupKeepFirst l).Nodup := by
  induction l with
  | nil => simp [dedupKeepFirst]
  | cons y ys ih =>
    refine List.Nodup.cons ?_ (ih.filter _)
    intro hmem
    have := (List.mem_filter.mp hmem).2
    simp at this

theorem idIndex_get {l : List String} {s : String} {i : ℕ}
    (h : idIndex l s = some i) : l.get? i = some s := by
  induction l generalizing i with
  | nil => simp [idIndex] at h
  | cons x xs ih =>
    by_cases hx : x = s
    · simp [idIndex, hx] at h
      subst hx
      simp [← h]
    · simp [idIndex, hx] at h
      obtain ⟨j, hj, rfl⟩ := h
      simpa using ih hj

theorem get_idIndex {l : List String} (hnd : l.Nodup) {s : String} {i : ℕ}
    (h : l.get? i = some s) : idIndex l s = some i := by
  induction l generalizing i with
  | nil => simp at h
  | cons x xs ih =>
    cases i with
    | zero =>
      rw [List.get?_cons_zero] at h
      obtain rfl := Option.some.inj h
      simp [idIndex]
    | succ j =>
      rw [List.get?_cons_succ] at h
      have hs : s ∈ xs := List.get?_mem h
      have hx : x ≠ s := by
        rintro rfl
        exact (List.nodup_cons.mp hnd).1 hs
      simp [idIndex, hx, ih (List.nodup_cons.mp hnd).2 h]

theorem lastIndex_get {α : Type} [DecidableEq α] {l : List α} {s : α} {i : ℕ}
    (h : lastIndex l s = some i) : l.get? i = some s := by
  induction l generalizing i with
  | nil => simp [lastIndex] at h
  | cons x xs ih =>
    rcases hx : lastIndex xs s with _ | j
    · rw [lastIndex, hx] at h
      by_cases hxs : x = s
      · simp [hxs] at h
        subst hxs
        simp [← h]
      · simp [hxs] at h
    · rw [lastIndex, hx] at h
      obtain rfl : j + 1 = i := by simpa using h
      simpa using ih hx

theorem lastIndex_eq_none {α : Type} [DecidableEq α] {l : List α} {s : α}
    (h : s ∉ l) : lastIndex l s = none := by
  induction l with
  | nil => rfl
  | cons x xs ih =>
    have hx : x ≠ s := fun hxs => h (hxs ▸ List.mem_cons_self x xs)
    have hs : s ∉ xs := fun hmem => h (List.mem_cons_of_mem x hmem)
    rw [lastIndex, ih hs]
    simp [hx]

theorem get_lastIndex {α : Type} [DecidableEq α] {l : List α} (hnd : l.Nodup)
    {s : α} {i : ℕ} (h : l.get? i = some s) : lastIndex l s = some i := by
  induction l generalizing i with
  | nil => simp at h
  | cons x xs ih =>
    cases i with
    | zero =>
      rw [List.get?_cons_zero] at h
      obtain rfl := Option.some.inj h
      have hx : x ∉ xs := (List.nodup_cons.mp hnd).1
      rw [lastIndex, lastIndex_eq_none hx]
      simp
    | succ j =>
      rw [List.get?_cons_succ] at h
      rw [lastIndex, ih (List.nodup_cons.mp hnd).2 h]

/-! Claim C1: matrix cells hold the maximum resolved score. -/

/-- Resolved scores of one user on one item split over an appended list. -/
theorem scoresFor_append (l₁ l₂ : List Interaction) (uid mid : String) :
    scoresFor (l₁ ++ l₂) uid mid = scoresFor l₁ uid mid ++ scoresFor l₂ uid mid := by
  simp [scoresFor]

/-- Master lemma for the score-map fold: the kept value is exactly the
maximum of the matching resolved scores, absent when none matches. -/
theorem cellOpt_spec (uid mid : String) (l : List Interaction) :
    (cellOpt l uid mid = none ↔ scoresFor l uid mid = []) ∧
    (∀ v, cellOpt l uid mid = some v →
      v ∈ scoresFor l uid mid ∧ ∀ s ∈ scoresFor l uid mid, s ≤ v) := by
  induction l using List.reverseRecOn with
  | nil => simp [cellOpt, scoresFor]
  | append_singleton l x ih =>
    have hfold : cellOpt (l ++ [x]) uid mid =
        (if x.user_id = uid ∧ x.media_id = mid then
          some (match cellOpt l uid mid with
                | none => resolvedScore x
                | some s => max s (resolvedScore x))
        else cellOpt l uid mid) := by
      simp [cellOpt, List.foldl_append]
    by_cases hmatch : x.user_id = uid ∧ x.media_id = mid
    · have hscores : scoresFor (l ++ [x]) uid mid =
          scoresFor l uid mid ++ [resolvedScore x] := by
        rw [scoresFor_append]
        simp [scoresFor, hmatch.1, hmatch.2]
      rw [hfold, if_pos hmatch]
      constructor
      · simp [hscores]
      · intro v hv
        rcases hcell : cellOpt l uid mid with _ | s
        · rw [hcell] at hv
          obtain rfl : resolvedScore x = v := by simpa using hv
          have hnil : scoresFor l uid mid = [] := (ih.1).mp hcell
          simp [hscores, hnil]
        · rw [hcell] at hv
          obtain rfl : max s (resolvedScore x) = v := by simpa using hv
          obtain ⟨hsmem, hsmax⟩ := ih.2 s hcell
          constructor
          · rcases max_choice s (resolvedScore x) with hmax | hmax <;>
              simp [hscores, hmax, hsmem]
          · intro t ht
            rw [hscores] at ht
            rcases List.mem_append.mp ht with htl | htx
            · exact le_trans (hsmax t htl) (le_max_left _ _)
            · simp at htx
              simp [htx]
    · have hscores : scoresFor (l ++ [x]) uid mid = scoresFor l uid mid := by
        rw [scoresFor_append]
        have : scoresFor [x] uid mid = [] := by
          simp only [scoresFor, List.filter]
          rw [decide_eq_false hmatch]
          simp
        simp [this]
      rw [hfold, if_neg hmatch, hscores]
      exact ih

/-- Claim C1 (amended): every cell of the matrix built by `build_matrix`
holds, for an index pair mapping to ids with at least one interaction, the
maximum of the resolved scores of that user's interactions on that item,
and 0 when no interaction matches; the resolution follows `resolvedScore`,
under which a "rate" interaction without a rating reads its table weight 0
rather than the unknown-kind default 0.5. -/
theorem c1_cell_is_max_resolved_score (l : List Interaction) (uid mid : String)
    (u i : ℕ) :
    (scoresFor l uid mid ≠ [] →
      ∃ v, cellOpt l uid mid = some v ∧ v ∈ scoresFor l uid mid ∧
        ∀ s ∈ scoresFor l uid mid, s ≤ v) ∧
    (scoresFor l uid mid = [] → cellOpt l uid mid = none) ∧
    ((userIds l).get? u = some uid → (itemIds l).get? i = some mid →
      collabMatrix l u i = (cellOpt l uid mid).getD 0) := by
  obtain ⟨hnone, hsome⟩ := cellOpt_spec uid mid l
  refine ⟨?_, hnone.mpr, ?_⟩
  · intro hne
    rcases hcell : cellOpt l uid mid with _ | v
    · exact absurd (hnone.mp hcell) hne
    · exact ⟨v, rfl, hsome v hcell⟩
  · intro hu hi
    simp only [collabMatrix]
    rw [hu, hi]

/-- Interaction record on which the stated resolution rule and the code
disagree: an explicit-rating interaction that carries no rating. -/
def c1RateNone : Interaction :=
  { user_id := "u", media_id := "i", interaction_type := "rate", rating := none }

/-- Claim C1 counterexample: for a lone "rate" interaction without a
rating, the built cell holds 0 (the table weight of "rate"), while the
claim's resolution rule, whose table lists only the six implicit kinds and
defaults unrecognized kinds to 0.5, predicts a maximum of 0.5. -/
theorem c1_counterexample :
    cellOpt [c1RateNone] "u" "i" = some 0 ∧
    scoresFor [c1RateNone] "u" "i" = [0] ∧
    specResolvedScore c1RateNone = 1/2 ∧
    ((0 : ℚ) = 1/2) = False := by
  refine ⟨by decide, by decide, ?_, by simp⟩
  simp [specResolvedScore, specResolvedScore.specWeight, c1RateNone]

/-! Claim C4: the id-index mappings are bijections. -/

/-- Claim C4 (amended): the collaborative user and item mappings are
mutually inverse for every interaction list; the content item mapping is
mutually inverse provided the catalogue ids are distinct (a duplicated id
overwrites its earlier index, breaking the index-to-id-to-index round
trip). -/
theorem c4_mappings_bijective (l : List Interaction) (items : List MediaItem) :
    (∀ i uid, (userIds l).get? i = some uid → idIndex (userIds l) uid = some i) ∧
    (∀ uid i, idIndex (userIds l) uid = some i → (userIds l).get? i = some uid) ∧
    (∀ i mid, (itemIds l).get? i = some mid → idIndex (itemIds l) mid = some i) ∧
    (∀ mid i, idIndex (itemIds l) mid = some i → (itemIds l).get? i = some mid) ∧
    ((items.map (fun m => m.id)).Nodup →
      (∀ i mid, cbIdxToItem items i = some mid → cbItemToIdx items mid = some i) ∧
      (∀ mid i, cbItemToIdx items mid = some i → cbIdxToItem items i = some mid)) := by
  refine ⟨fun i uid h => get_idIndex (nodup_dedupKeepFirst _) h,
    fun uid i h => idIndex_get h,
    fun i mid h => get_idIndex (nodup_dedupKeepFirst _) h,
    fun mid i h => idIndex_get h,
    fun hnd => ⟨fun i mid h => get_lastIndex hnd h, fun mid i h => lastIndex_get h⟩⟩

/-- Catalogue with a duplicated id, on which the content mapping fails the
round trip the claim states for duplicate-bearing inputs. -/
def c4DupItems : List MediaItem :=
  [{ id := "a", title := "t", genres := "g", community_rating := none,
     media_type := "movie" },
   { id := "a", title := "t2", genres := "g", community_rating := none,
     media_type := "movie" }]

/-- Claim C4 counterexample: with two catalogue records sharing id "a",
index 0 maps to id "a" but id "a" maps back to index 1, so
`id_to_index[index_to_id[0]] = 1 ≠ 0`. -/
theorem c4_counterexample :
    cbIdxToItem c4DupItems 0 = some "a" ∧
    cbItemToIdx c4DupItems "a" = some 1 ∧
    ((1 : ℕ) = 0) = False := by
  refine ⟨rfl, rfl, by simp⟩

/-! Claim C5: min-max normalization. -/

theorem foldl_min_le (xs : List ℚ) (a : ℚ) :
    xs.foldl min a ≤ a ∧ ∀ y ∈ xs, xs.foldl min a ≤ y := by
  induction xs generalizing a with
  | nil => simp
  | cons z zs ih =>
    have h := ih (min a z)
    refine ⟨le_trans h.1 (min_le_left a z), ?_⟩
    intro y hy
    rcases List.mem_cons.mp hy with rfl | hmem
    · exact le_trans h.1 (min_le_right a y)
    · exact h.2 y hmem

theorem foldl_min_mem (xs : List ℚ) (a : ℚ) :
    xs.foldl min a = a ∨ xs.foldl min a ∈ xs := by
  induction xs generalizing a with
  | nil => simp
  | cons z zs ih =>
    rcases ih (min a z) with heq | hmem
    · rw [List.foldl_cons, heq]
      rcases min_choice a z with h | h
      · exact Or.inl h
      · rw [h]
        exact Or.inr (List.mem_cons_self z zs)
    · exact Or.inr (List.mem_cons_of_mem z hmem)

theorem foldl_max_le (xs : List ℚ) (a : ℚ) :
    a ≤ xs.foldl max a ∧ ∀ y ∈ xs, y ≤ xs.foldl max a := by
  induction xs generalizing a with
  | nil => simp
  | cons z zs ih =>
    have h := ih (max a z)
    refine ⟨le_trans (le_max_left a z) h.1, ?_⟩
    intro y hy
    rcases List.mem_cons.mp hy with rfl | hmem
    · exact le_trans (le_max_right a y) h.1
    · exact h.2 y hmem

theorem foldl_max_mem (xs : List ℚ) (a : ℚ) :
    xs.foldl max a = a ∨ xs.foldl max a ∈ xs := by
  induction xs generalizing a with
  | nil => simp
  | cons z zs ih =>
    rcases ih (max a z) with heq | hmem
    · rw [List.foldl_cons, heq]
      rcases max_choice a z with h | h
      · exact Or.inl h
      · rw [h]
        exact Or.inr (List.mem_cons_self z zs)
    · exact Or.inr (List.mem_cons_of_mem z hmem)

theorem listMin_le {l : List ℚ} {x : ℚ} (hx : x ∈ l) : listMin l ≤ x := by
  cases l with
  | nil => cases hx
  | cons y ys =>
    rcases List.mem_cons.mp hx with rfl | hmem
    · exact (foldl_min_le ys x).1
    · exact (foldl_min_le ys y).2 x hmem

theorem listMin_mem {l : List ℚ} (h : l ≠ []) : listMin l ∈ l := by
  cases l with
  | nil => exact absurd rfl h
  | cons y ys =>
    show ys.foldl min y ∈ y :: ys
    rcases foldl_min_mem ys y with heq | hmem
    · rw [heq]
      exact List.mem_cons_self y ys
    · exact List.mem_cons_of_mem y hmem

theorem le_listMax {l : List ℚ} {x : ℚ} (hx : x ∈ l) : x ≤ listMax l := by
  cases l with
  | nil => cases hx
  | cons y ys =>
    rcases List.mem_cons.mp hx with rfl | hmem
    · exact (foldl_max_le ys x).1
    · exact (foldl_max_le ys y).2 x hmem

theorem listMax_mem {l : List ℚ} (h : l ≠ []) : listMax l ∈ l := by
  cases l with
  | nil => exact absurd rfl h
  | cons y ys =>
    show ys.foldl max y ∈ y :: ys
    rcases foldl_max_mem ys y with heq | hmem
    · rw [heq]
      exact List.mem_cons_self y ys
    · exact List.mem_cons_of_mem y hmem

/-- Claim C5: `_normalize` returns the empty list on the empty list, keeps
the ids in their order, maps every element to 0.5 when all input scores
are equal, and otherwise spans exactly [0, 1]: some element reads 0, some
element reads 1, and every element lies between them. -/
theorem c5_normalize_minmax (scores : List (String × ℚ)) :
    normalizeScores [] = [] ∧
    (normalizeScores scores).map (fun p => p.1) = scores.map (fun p => p.1) ∧
    ((∀ p ∈ scores, ∀ q ∈ scores, p.2 = q.2) →
      ∀ p ∈ normalizeScores scores, p.2 = 1/2) ∧
    ((∃ p ∈ scores, ∃ q ∈ scores, p.2 ≠ q.2) →
      (∃ p ∈ normalizeScores scores, p.2 = 0) ∧
      (∃ p ∈ normalizeScores scores, p.2 = 1) ∧
      ∀ p ∈ normalizeScores scores, 0 ≤ p.2 ∧ p.2 ≤ 1) := by
  refine ⟨rfl, ?_, ?_, ?_⟩
  · cases scores with
    | nil => rfl
    | cons x xs =>
      rw [normalizeScores]
      split <;> simp [List.map_map, Function.comp]
  · intro hall
    cases scores with
    | nil => simp [normalizeScores]
    | cons x xs =>
      have hne : (x :: xs).map (fun p => p.2) ≠ [] := by simp
      obtain ⟨pmin, hpmin, hmin⟩ := List.mem_map.mp (listMin_mem hne)
      obtain ⟨pmax, hpmax, hmax⟩ := List.mem_map.mp (listMax_mem hne)
      have hspan : listMax ((x :: xs).map (fun p => p.2)) -
          listMin ((x :: xs).map (fun p => p.2)) = 0 := by
        rw [← hmin, ← hmax, hall pmax hpmax pmin hpmin, sub_self]
      intro p hp
      rw [normalizeScores] at hp
      simp only [hspan, if_pos rfl] at hp
      obtain ⟨q, _, rfl⟩ := List.mem_map.mp hp
      rfl
  · intro hex
    obtain ⟨p, hp, q, hq, hpq⟩ := hex
    have hcons : scores ≠ [] := by rintro rfl; cases hp
    have hne : scores.map (fun r => r.2) ≠ [] := by
      simpa using hcons
    set lo := listMin (scores.map (fun r => r.2)) with hlo
    set hi := listMax (scores.map (fun r => r.2)) with hhi
    have hlop : lo ≤ p.2 := listMin_le (List.mem_map_of_mem _ hp)
    have hloq : lo ≤ q.2 := listMin_le (List.mem_map_of_mem _ hq)
    have hhip : p.2 ≤ hi := le_listMax (List.mem_map_of_mem _ hp)
    have hhiq : q.2 ≤ hi := le_listMax (List.mem_map_of_mem _ hq)
    have hlt : lo < hi := by
      rcases eq_or_lt_of_le (hlop.trans hhip) with heq | h
      · exfalso
        rw [← heq] at hhip hhiq
        exact hpq ((le_antisymm hhip hlop).trans (le_antisymm hhiq hloq).symm)
      · exact h
    have hspan : hi - lo ≠ 0 := by
      intro hcon
      exact absurd (by linarith : hi ≤ lo) (not_le.mpr hlt)
    have hnorm : normalizeScores scores =
        scores.map (fun r => (r.1, (r.2 - lo) / (hi - lo))) := by
      cases scores with
      | nil => exact absurd rfl hcons
      | cons x xs =>
        rw [normalizeScores]
        simp only [← hlo, ← hhi]
        rw [if_neg hspan]
    obtain ⟨pmin, hpmin, hmin⟩ := List.mem_map.mp (listMin_mem hne)
    obtain ⟨pmax, hpmax, hmax⟩ := List.mem_map.mp (listMax_mem hne)
    have hpos : 0 < hi - lo := by linarith
    refine ⟨⟨(pmin.1, (pmin.2 - lo) / (hi - lo)), ?_, ?_⟩,
      ⟨(pmax.1, (pmax.2 - lo) / (hi - lo)), ?_, ?_⟩, ?_⟩
    · rw [hnorm]
      exact List.mem_map_of_mem _ hpmin
    · show (pmin.2 - lo) / (hi - lo) = 0
      rw [show pmin.2 = lo from hmin, sub_self, zero_div]
    · rw [hnorm]
      exact List.mem_map_of_mem _ hpmax
    · rw [show pmax.2 = hi from hmax]
      exact div_self hspan
    · intro r hr
      rw [hnorm] at hr
      obtain ⟨s, hs, rfl⟩ := List.mem_map.mp hr
      have h1 : lo ≤ s.2 := listMin_le (List.mem_map_of_mem _ hs)
      have h2 : s.2 ≤ hi := le_listMax (List.mem_map_of_mem _ hs)
      constructor
      · exact div_nonneg (by linarith) hpos.le
      · rw [div_le_one hpos]
        linarith

/-! Claim C3: similarity-matrix invariants. -/

theorem cosineSim_symm (x y : ℕ → ℚ) (d : ℕ) :
    cosineSim x y d = cosineSim y x d := by
  have hs : (∑ k ∈ Finset.range d, (x k : ℝ) * (y k : ℝ)) =
      ∑ k ∈ Finset.range d, (y k : ℝ) * (x k : ℝ) :=
    Finset.sum_congr rfl (fun k _ => mul_comm _ _)
  rw [cosineSim, cosineSim, hs]
  by_cases hc : Real.sqrt (∑ k ∈ Finset.range d, (x k : ℝ) ^ 2) = 0 ∨
      Real.sqrt (∑ k ∈ Finset.range d, (y k : ℝ) ^ 2) = 0
  · rw [if_pos hc, if_pos (Or.symm hc)]
  · rw [if_neg hc, if_neg (fun h => hc (Or.symm h)), mul_comm]

theorem cosineSim_bounds (x y : ℕ → ℚ) (d : ℕ) :
    -1 ≤ cosineSim x y d ∧ cosineSim x y d ≤ 1 := by
  rw [cosineSim]
  split
  · norm_num
  · rename_i h
    push_neg at h
    have hx : 0 < Real.sqrt (∑ k ∈ Finset.range d, (x k : ℝ) ^ 2) :=
      lt_of_le_of_ne (Real.sqrt_nonneg _) (Ne.symm h.1)
    have hy : 0 < Real.sqrt (∑ k ∈ Finset.range d, (y k : ℝ) ^ 2) :=
      lt_of_le_of_ne (Real.sqrt_nonneg _) (Ne.symm h.2)
    have hpos : 0 < Real.sqrt (∑ k ∈ Finset.range d, (x k : ℝ) ^ 2) *
        Real.sqrt (∑ k ∈ Finset.range d, (y k : ℝ) ^ 2) := mul_pos hx hy
    have hupper : (∑ k ∈ Finset.range d, (x k : ℝ) * (y k : ℝ)) ≤
        Real.sqrt (∑ k ∈ Finset.range d, (x k : ℝ) ^ 2) *
          Real.sqrt (∑ k ∈ Finset.range d, (y k : ℝ) ^ 2) :=
      Real.sum_mul_le_sqrt_mul_sqrt _ _ _
    have hlower : -(Real.sqrt (∑ k ∈ Finset.range d, (x k : ℝ) ^ 2) *
        Real.sqrt (∑ k ∈ Finset.range d, (y k : ℝ) ^ 2)) ≤
        ∑ k ∈ Finset.range d, (x k : ℝ) * (y k : ℝ) := by
      have hneg := Real.sum_mul_le_sqrt_mul_sqrt (Finset.range d)
        (fun k => -(x k : ℝ)) (fun k => (y k : ℝ))
      simp only [neg_mul, Finset.sum_neg_distrib, neg_sq] at hneg
      linarith
    constructor
    · rw [le_div_iff₀ hpos]
      linarith
    · rw [div_le_one hpos]
      exact hupper

theorem cosineSim_nonneg (x y : ℕ → ℚ) (d : ℕ)
    (hx : ∀ k, 0 ≤ x k) (hy : ∀ k, 0 ≤ y k) : 0 ≤ cosineSim x y d := by
  rw [cosineSim]
  split
  · exact le_refl 0
  · refine div_nonneg ?_ (mul_nonneg (Real.sqrt_nonneg _) (Real.sqrt_nonneg _))
    refine Finset.sum_nonneg (fun k _ => mul_nonneg ?_ ?_)
    · exact_mod_cast hx k
    · exact_mod_cast hy k

/-- Claim C3: every user-user similarity matrix computed from an
interaction list is symmetric with zero diagonal and values in [-1, 1],
and every item-item similarity matrix computed from a nonnegative feature
matrix is symmetric with zero diagonal and values in [0, 1]. -/
theorem c3_similarity_invariants (l : List Interaction) (u v : ℕ)
    (F : ℕ → ℕ → ℚ) (d : ℕ) (i j : ℕ) :
    userSim l u v = userSim l v u ∧
    userSim l u u = 0 ∧
    (-1 ≤ userSim l u v ∧ userSim l u v ≤ 1) ∧
    itemSimF F d i j = itemSimF F d j i ∧
    itemSimF F d i i = 0 ∧
    ((∀ a b, 0 ≤ F a b) →
      0 ≤ itemSimF F d i j ∧ itemSimF F d i j ≤ 1) := by
  refine ⟨?_, ?_, ?_, ?_, ?_, ?_⟩
  · by_cases hall : allBelowMin l = true
    · rw [userSim, userSim, if_pos hall, if_pos hall]
    · by_cases huv : u = v
      · subst huv
        rfl
      · have hvu : ¬v = u := fun h => huv h.symm
        by_cases hbu : belowMin l u = true
        · have hL : userSim l u v = 0 := by
            rw [userSim, if_neg hall, if_neg huv, if_pos (Or.inl hbu)]
          have hR : userSim l v u = 0 := by
            rw [userSim, if_neg hall, if_neg hvu, if_pos (Or.inr hbu)]
          rw [hL, hR]
        · by_cases hbv : belowMin l v = true
          · have hL : userSim l u v = 0 := by
              rw [userSim, if_neg hall, if_neg huv, if_pos (Or.inr hbv)]
            have hR : userSim l v u = 0 := by
              rw [userSim, if_neg hall, if_neg hvu, if_pos (Or.inl hbv)]
            rw [hL, hR]
          · have hL : userSim l u v =
                cosineSim (fun i => collabMatrix l u i)
                  (fun i => collabMatrix l v i) (itemIds l).length := by
              rw [userSim, if_neg hall, if_neg huv, if_neg (not_or.mpr ⟨hbu, hbv⟩)]
            have hR : userSim l v u =
                cosineSim (fun i => collabMatrix l v i)
                  (fun i => collabMatrix l u i) (itemIds l).length := by
              rw [userSim, if_neg hall, if_neg hvu, if_neg (not_or.mpr ⟨hbv, hbu⟩)]
            rw [hL, hR]
            exact cosineSim_symm _ _ _
  · rw [userSim]
    split
    · rfl
    · simp
  · rw [userSim]
    split
    · norm_num
    · split
      · norm_num
      · split
        · norm_num
        · exact cosineSim_bounds _ _ _
  · by_cases hij : i = j
    · subst hij
      rfl
    · have hL : itemSimF F d i j = cosineSim (F i) (F j) d := by
        rw [itemSimF, if_neg hij]
      have hR : itemSimF F d j i = cosineSim (F j) (F i) d := by
        rw [itemSimF, if_neg (fun h => hij h.symm)]
      rw [hL, hR]
      exact cosineSim_symm _ _ _
  · simp [itemSimF]
  · intro hF
    rw [itemSimF]
    split
    · norm_num
    · exact ⟨cosineSim_nonneg _ _ _ (fun k => hF i k) (fun k => hF j k),
        (cosineSim_bounds _ _ _).2⟩

/-! Claim C10: the weighted-average denominator is strictly positive. -/

theorem mem_cands_mem_nonzero (P : PredictIn) {v : ℕ} (hv : v ∈ cands P) :
    v ∈ nonzeroIdx P := by
  rw [cands] at hv
  split at hv
  · have hsort := List.take_subset MAX_SIMILAR_USERS _ hv
    exact (List.perm_insertionSort _ _).subset hsort
  · exact hv

theorem mem_cands_pos (P : PredictIn) {v : ℕ} (hv : v ∈ cands P) :
    0 < simF P (uIdxD P) v := by
  have := mem_cands_mem_nonzero P hv
  rw [nonzeroIdx] at this
  have := List.of_mem_filter this
  exact of_decide_eq_true this

theorem cands_ne_nil (P : PredictIn) (h : nonzeroIdx P ≠ []) :
    cands P ≠ [] := by
  rw [cands]
  split
  · rename_i hlen
    intro hcon
    have : ((sortDescBy (fun v => simF P (uIdxD P) v) (nonzeroIdx P)).take
        MAX_SIMILAR_USERS).length = 0 := by rw [hcon]; rfl
    rw [List.length_take] at this
    have hlen' : (sortDescBy (fun v => simF P (uIdxD P) v) (nonzeroIdx P)).length
        = (nonzeroIdx P).length := (List.perm_insertionSort _ _).length_eq
    rcases Nat.min_eq_zero_iff.mp this with h50 | hzero
    · exact absurd h50 (by norm_num [MAX_SIMILAR_USERS])
    · rw [hlen'] at hzero
      exact h (List.length_eq_zero.mp hzero)
  · exact h

theorem simTotal_pos (P : PredictIn) (h : cands P ≠ []) : 0 < simTotal P := by
  rw [simTotal]
  refine List.sum_pos _ ?_ ?_
  · intro x hx
    obtain ⟨v, hv, rfl⟩ := List.mem_map.mp hx
    exact mem_cands_pos P hv
  · simpa using h

/-- Claim C10: every neighbour admitted to the candidate set of
`predict_for_user` has strictly positive similarity to the target, the
candidate set is non-empty whenever the positive-similarity mask is, its
similarity total is then strictly positive, and consequently the
`sim_total == 0` guard can never fire: the emitted indices are the same
with or without that guard, and the weighted-average division always has a
strictly positive denominator. -/
theorem c10_sim_total_positive (P : PredictIn) (n : ℕ) :
    (∀ v ∈ cands P, 0 < simF P (uIdxD P) v) ∧
    (nonzeroIdx P ≠ [] → cands P ≠ [] ∧ 0 < simTotal P) ∧
    predictIdx P n =
      (if ¬P.isBuilt ∨ P.sim.isNone ∨ P.uIdx.isNone ∨ nonzeroIdx P = [] then []
       else (topIdx P n).takeWhile
         (fun i => (0 : WithBot ℚ) < maskedScore P i)) := by
  refine ⟨fun v hv => mem_cands_pos P hv,
    fun h => ⟨cands_ne_nil P h, simTotal_pos P (cands_ne_nil P h)⟩, ?_⟩
  rw [predictIdx]
  by_cases hguard : ¬P.isBuilt ∨ P.sim.isNone ∨ P.uIdx.isNone ∨ nonzeroIdx P = []
  · rw [if_pos hguard]
    rcases hguard with h | h | h | h
    · rw [if_pos (Or.inl h)]
    · rw [if_pos (Or.inr (Or.inl h))]
    · rw [if_pos (Or.inr (Or.inr (Or.inl h)))]
    · rw [if_pos (Or.inr (Or.inr (Or.inr (Or.inl h))))]
  · rw [if_neg hguard]
    push_neg at hguard
    have hne : nonzeroIdx P ≠ [] := hguard.2.2.2
    have hpos : simTotal P ≠ 0 := (simTotal_pos P (cands_ne_nil P hne)).ne'
    rw [if_neg]
    intro hcon
    rcases hcon with h | h | h | h | h
    · exact h hguard.1
    · exact absurd h (by simpa using hguard.2.1)
    · exact absurd h (by simpa using hguard.2.2.1)
    · exact hne h
    · exact hpos h

/-! Claim C2: predict_for_user at n = 0. -/

/-- Interaction list of the failing input: users a and b, items i0-i2;
a has scores (1.5, 2, 0), b has scores (1, 2, 2), so both users clear the
interaction threshold and their cosine similarity is the rational 11/15. -/
def c2Interactions : List Interaction :=
  [{ user_id := "a", media_id := "i0", interaction_type := "completed", rating := none },
   { user_id := "a", media_id := "i1", interaction_type := "like", rating := none },
   { user_id := "b", media_id := "i0", interaction_type := "rate", rating := some 5 },
   { user_id := "b", media_id := "i1", interaction_type := "like", rating := none },
   { user_id := "b", media_id := "i2", interaction_type := "like", rating := none }]

/-- User-user similarity matrix of the failing input, matching the value
`compute_user_similarity` produces on `c2Interactions` (the first conjunct
of the theorem checks it against `userSim`). -/
def c2Sim : ℕ → ℕ → ℚ := fun u v => if u = v then 0 else 11/15

/-- Prediction input of the failing model state: READY, user "a". -/
def c2P : PredictIn :=
  { isBuilt := true
    sim := some c2Sim
    uIdx := idIndex (userIds c2Interactions) "a"
    nU := 2
    nI := 3
    M := collabMatrix c2Interactions
    idxToItem := fun i => ((itemIds c2Interactions).get? i).getD "" }

/-- Claim C2 failing input, evaluated: on a READY model whose computed
user-user similarity is exactly 11/15 between the two users, asking for
n = 0 predictions returns one item, item i2 with score 2, because the
Python slice `[-n:]` with n = 0 keeps the whole candidate array; the
claim's bound of at most n entries fails at n = 0. -/
theorem c2_n_zero_failing_input :
    userSim c2Interactions 0 1 = 11/15 ∧
    predictForUser c2P 0 = [("i2", 2)] ∧
    (predictForUser c2P 0).length = 1 := by
  refine ⟨?_, ?_, ?_⟩
  · have h1 : ¬(allBelowMin c2Interactions = true) := by decide
    have h2 : ¬((0:ℕ) = 1) := by decide
    have h3 : ¬(belowMin c2Interactions 0 = true ∨ belowMin c2Interactions 1 = true) := by
      decide
    have hlen : (itemIds c2Interactions).length = 3 := by decide
    rw [userSim, if_neg h1, if_neg h2, if_neg h3, hlen, cosineSim]
    have hM00 : collabMatrix c2Interactions 0 0 = 3/2 := by
      simp +decide [collabMatrix, userIds, itemIds, dedupKeepFirst, cellOpt,
        resolvedScore, INTERACTION_WEIGHTS, c2Interactions]
    have hM01 : collabMatrix c2Interactions 0 1 = 2 := by
      simp +decide [collabMatrix, userIds, itemIds, dedupKeepFirst, cellOpt,
        resolvedScore, INTERACTION_WEIGHTS, c2Interactions]
    have hM02 : collabMatrix c2Interactions 0 2 = 0 := by
      simp +decide [collabMatrix, userIds, itemIds, dedupKeepFirst, cellOpt,
        resolvedScore, INTERACTION_WEIGHTS, c2Interactions]
    have hM10 : collabMatrix c2Interactions 1 0 = 1 := by
      simp +decide [collabMatrix, userIds, itemIds, dedupKeepFirst, cellOpt,
        resolvedScore, INTERACTION_WEIGHTS, c2Interactions]
    have hM11 : collabMatrix c2Interactions 1 1 = 2 := by
      simp +decide [collabMatrix, userIds, itemIds, dedupKeepFirst, cellOpt,
        resolvedScore, INTERACTION_WEIGHTS, c2Interactions]
    have hM12 : collabMatrix c2Interactions 1 2 = 2 := by
      simp +decide [collabMatrix, userIds, itemIds, dedupKeepFirst, cellOpt,
        resolvedScore, INTERACTION_WEIGHTS, c2Interactions]
    simp only [Finset.sum_range_succ, Finset.sum_range_zero, hM00, hM01, hM02,
      hM10, hM11, hM12]
    push_cast
    norm_num
    rw [show (25:ℝ) = 5^2 by norm_num, Real.sqrt_sq (by norm_num : (0:ℝ) ≤ 5),
      show (4:ℝ) = 2^2 by norm_num, Real.sqrt_sq (by norm_num : (0:ℝ) ≤ 2),
      show (9:ℝ) = 3^2 by norm_num, Real.sqrt_sq (by norm_num : (0:ℝ) ≤ 3)]
    norm_num
  · simp +decide [predictForUser, predictIdx, topIdx, maskedScore, predicted,
      simTotal, cands, nonzeroIdx, simF, uIdxD, c2P, c2Sim, c2Interactions,
      collabMatrix, cellOpt, userIds, itemIds, dedupKeepFirst, idIndex,
      sortDescBy, List.insertionSort, List.orderedInsert, round4, roundHalfEven,
      MAX_SIMILAR_USERS, resolvedScore, INTERACTION_WEIGHTS, List.takeWhile,
      List.range_succ]
    norm_num [Int.fract]
  · simp +decide [predictForUser, predictIdx, topIdx, maskedScore, predicted,
      simTotal, cands, nonzeroIdx, simF, uIdxD, c2P, c2Sim, c2Interactions,
      collabMatrix, cellOpt, userIds, itemIds, dedupKeepFirst, idIndex,
      sortDescBy, List.insertionSort, List.orderedInsert, round4, roundHalfEven,
      MAX_SIMILAR_USERS, resolvedScore, INTERACTION_WEIGHTS, List.takeWhile,
      List.range_succ]

/-! Claim C9: build_matrix on empty input. -/

/-- Claim C9 (amended): rebuilding from an empty interaction list leaves
the model unbuilt (`is_built` false) and every subsequent prediction empty,
for every prior state; the id mappings, however, are left as they were, so
the user and item counts are those of the prior state — zero when the model
was never built from non-empty input (in particular from the initial
state). -/
theorem c9_empty_build_unbuilt (s : CFState) (uid : String) (n : ℕ) :
    (buildMatrixS s []).isBuilt = false ∧
    predictS (buildMatrixS s []) uid n = [] ∧
    (buildMatrixS s []).users = s.users ∧
    (buildMatrixS s []).items = s.items ∧
    userCount (buildMatrixS initCF []) = 0 ∧
    itemCount (buildMatrixS initCF []) = 0 := by
  refine ⟨rfl, ?_, rfl, rfl, rfl, rfl⟩
  simp [predictS, predictForUser, predictIdx, buildMatrixS]

/-- Prior state built from one interaction: one user, one item. -/
def c9Prior : CFState :=
  buildMatrixS initCF
    [{ user_id := "u", media_id := "i", interaction_type := "watch", rating := none }]

/-- Claim C9 counterexample: rebuilding the previously built one-user model
from an empty list leaves user_count and item_count at 1, not the claimed
0 — the empty-input branch only clears the built flag and returns, keeping
the stale mappings. -/
theorem c9_counterexample :
    userCount (buildMatrixS c9Prior []) = 1 ∧
    itemCount (buildMatrixS c9Prior []) = 1 ∧
    (buildMatrixS c9Prior []).isBuilt = false ∧
    ((1 : ℕ) = 0) = False := by
  refine ⟨rfl, rfl, rfl, by simp⟩

/-! Claim C8: content-based recommend_for_user. -/

theorem pairwise_sortDescBy {α β : Type} [LinearOrder β] (key : α → β)
    (l : List α) :
    List.Pairwise (fun a b => key b ≤ key a) (sortDescBy key l) := by
  haveI : IsTotal α (fun a b => key b ≤ key a) := ⟨fun a b => le_total (key b) (key a)⟩
  haveI : IsTrans α (fun a b => key b ≤ key a) := ⟨fun a b c hab hbc => le_trans hbc hab⟩
  exact List.sorted_insertionSort _ l

theorem sortDescBy_perm {α β : Type} [LinearOrder β] (key : α → β) (l : List α) :
    List.Perm (sortDescBy key l) l :=
  List.perm_insertionSort _ l

/-- Indices emitted by `recommend_for_user` are in range and carry a
strictly positive masked score. -/
theorem mem_recIdx (R : RecIn) (watched : List String) (n : ℕ) {i : ℕ}
    (hi : i ∈ recIdx R watched n) :
    i < R.items.length ∧ (0 : WithBot ℚ) < recMasked R watched i := by
  rw [recIdx] at hi
  split at hi
  · cases hi
  · have hpos := List.mem_takeWhile_imp hi
    have htop : i ∈ recTopIdx R watched n :=
      (List.takeWhile_sublist _).subset hi
    have hsorted : i ∈ sortDescBy (recMasked R watched)
        (List.range R.items.length) := by
      rw [recTopIdx] at htop
      split at htop
      · exact htop
      · split at htop
        · exact htop
        · exact List.take_subset _ _ htop
    have hrange := (sortDescBy_perm _ _).subset hsorted
    exact ⟨List.mem_range.mp hrange, of_decide_eq_true hpos⟩

/-- Claim C8: `recommend_for_user` returns the empty list when the model is
not READY or no watched id resolves; otherwise every returned entry is an
in-catalogue item scored by the arithmetic mean (sum divided by count, not
the sum) of its similarity to the resolved watched items, rounded to 4
places; no resolved watched index — and, when the catalogue ids are
distinct, no already-watched id — is ever returned, and the emitted indices
are ranked by non-increasing aggregated score with every score strictly
positive (the scan stops at the first non-positive or infinite one). -/
theorem c8_recommend_for_user (R : RecIn) (watched : List String) (n : ℕ) :
    ((¬R.isBuilt ∨ R.sim.isNone ∨ watchedIdx R watched = []) →
      recommendForUser R watched n = []) ∧
    recommendForUser R watched n = (recIdx R watched n).map
      (fun i => ((cbIdxToItem R.items i).getD "",
        round4 (((watchedIdx R watched).map (fun w => recSimF R w i)).sum /
          ((watchedIdx R watched).length : ℚ)))) ∧
    (∀ i ∈ recIdx R watched n,
      i ∉ watchedIdx R watched ∧ 0 < aggScore R watched i) ∧
    List.Pairwise (fun i j => aggScore R watched j ≤ aggScore R watched i)
      (recIdx R watched n) ∧
    ((R.items.map (fun m => m.id)).Nodup →
      ∀ p ∈ recommendForUser R watched n, p.1 ∉ watched) := by
  have hmask : ∀ i ∈ recIdx R watched n,
      i ∉ watchedIdx R watched ∧ 0 < aggScore R watched i := by
    intro i hi
    have hpos := (mem_recIdx R watched n hi).2
    rw [recMasked] at hpos
    split at hpos
    · exact absurd hpos (by simp)
    · rename_i hnotin
      refine ⟨hnotin, ?_⟩
      rw [← WithBot.coe_zero, WithBot.coe_lt_coe] at hpos
      exact hpos
  refine ⟨?_, rfl, hmask, ?_, ?_⟩
  · intro hguard
    rw [recommendForUser, recIdx]
    rcases hguard with h | h | h
    · rw [if_pos (Or.inl h)]
      rfl
    · rw [if_pos (Or.inr (Or.inl h))]
      rfl
    · by_cases hw : watched = []
      · rw [if_pos (Or.inr (Or.inr (Or.inl hw)))]
        rfl
      · rw [if_pos (Or.inr (Or.inr (Or.inr h)))]
        rfl
  · have hpw : List.Pairwise
        (fun i j => recMasked R watched j ≤ recMasked R watched i)
        (recIdx R watched n) := by
      have hsorted := pairwise_sortDescBy (recMasked R watched)
        (List.range R.items.length)
      have hsub1 : List.Sublist (recIdx R watched n) (recTopIdx R watched n) := by
        rw [recIdx]
        split
        · exact List.nil_sublist _
        · exact List.takeWhile_sublist _
      have hsub2 : List.Sublist (recTopIdx R watched n)
          (sortDescBy (recMasked R watched) (List.range R.items.length)) := by
        rw [recTopIdx]
        split
        · exact List.Sublist.refl _
        · split
          · exact List.Sublist.refl _
          · exact List.take_sublist _ _
      exact hsorted.sublist (hsub1.trans hsub2)
    refine hpw.imp_of_mem ?_
    intro a b ha hb hab
    have hma := hmask a ha
    have hmb := hmask b hb
    have hca : recMasked R watched a = (aggScore R watched a : WithBot ℚ) := by
      rw [recMasked, if_neg hma.1]
    have hcb : recMasked R watched b = (aggScore R watched b : WithBot ℚ) := by
      rw [recMasked, if_neg hmb.1]
    rw [hca, hcb, WithBot.coe_le_coe] at hab
    exact hab
  · intro hnd p hp
    rw [recommendForUser] at hp
    obtain ⟨i, hi, rfl⟩ := List.mem_map.mp hp
    have hlt := (mem_recIdx R watched n hi).1
    have hget : cbIdxToItem R.items i = some ((R.items.map (fun m => m.id)).get
        ⟨i, by simpa using hlt⟩) := by
      rw [cbIdxToItem]
      exact List.get?_eq_get (by simpa using hlt)
    intro hmem
    have hback : cbItemToIdx R.items
        ((R.items.map (fun m => m.id)).get ⟨i, by simpa using hlt⟩) = some i :=
      get_lastIndex hnd (by
        rw [← cbIdxToItem]
        exact hget)
    have hwidx : i ∈ watchedIdx R watched := by
      rw [watchedIdx]
      refine List.mem_filterMap.mpr ⟨_, ?_, hback⟩
      simpa [hget] using hmem
    exact (hmask i hi).1 hwidx

/-- Content model state over a catalogue with a duplicated id, READY, with
a similarity matrix giving weight 1 from stale index 1 to index 0. -/
def c8R : RecIn :=
  { isBuilt := true
    sim := some (fun w c => if w = 1 ∧ c = 0 then 1 else 0)
    items :=
      [{ id := "a", title := "t", genres := "g", community_rating := none,
         media_type := "movie" },
       { id := "a", title := "t2", genres := "g", community_rating := none,
         media_type := "movie" }] }

/-- Claim C8 counterexample: with the catalogue holding id "a" twice, the
watched id "a" resolves only to its last index 1, the stale index 0 keeps a
positive aggregated score, and `recommend_for_user(["a"], 5)` returns the
already-watched id "a". -/
theorem c8_counterexample :
    recommendForUser c8R ["a"] 5 = [("a", 1)] ∧
    ("a" ∈ (["a"] : List String)) := by
  constructor
  · simp +decide [recommendForUser, recIdx, recTopIdx, recMasked, aggScore,
      watchedIdx, recSimF, c8R, cbItemToIdx, cbIdxToItem, lastIndex,
      sortDescBy, List.insertionSort, List.orderedInsert, round4,
      roundHalfEven, List.takeWhile, List.range_succ]
  · exact List.mem_singleton.mpr rfl

/-! Claim C6: caching behaviour of get_recommendations. -/

/-- Claim C6 (amended): a cache hit returns the cached list truncated to
`limit`, writes nothing, and is independent of everything but the cached
value (neither sub-model nor the history store can influence it); on a
miss, the returned list is the merged-or-fallback result truncated to
`limit`, the cache is written with exactly that (truncated) returned list
if and only if it is non-empty, and the returned list never exceeds
`limit` entries. -/
theorem c6_cache_roundtrip (H H' : HybridIn) (limit : ℕ) :
    (∀ l, H.cached = some l → getRecs H limit = (l.take limit, none)) ∧
    (∀ l, H.cached = some l → H'.cached = some l →
      (getRecs H limit).1 = (getRecs H' limit).1) ∧
    (H.cached = none →
      (getRecs H limit).1 = formatResults ((mergedOrFallback H limit).take limit) ∧
      (getRecs H limit).2 =
        (if (getRecs H limit).1 = [] then none else some ((getRecs H limit).1))) ∧
    (getRecs H limit).1.length ≤ limit := by
  refine ⟨?_, ?_, ?_, ?_⟩
  · intro l hc
    rw [getRecs, hc]
  · intro l hc hc'
    rw [getRecs, hc, getRecs, hc']
  · intro hc
    rw [getRecs, hc]
    exact ⟨rfl, rfl⟩
  · rcases hc : H.cached with _ | l
    · rw [getRecs, hc]
      simp only [formatResults]
      rw [List.length_map]
      exact (List.length_take _ _).le.trans (min_le_left _ _)
    · rw [getRecs, hc]
      exact (List.length_take _ _).le.trans (min_le_left _ _)

/-- Hybrid input of the counterexample: a cache miss where the
collaborative model yields two items but `limit = 1`. -/
def c6H : HybridIn :=
  { cached := none
    cfReady := true
    cfPredict := fun _ => [("a", 2), ("b", 1)]
    cbReady := false
    watched := []
    cbRecommend := fun _ _ => []
    metadata := []
    cfW := 1
    cbW := 0 }

/-- Rounding to 4 places fixes 0. -/
theorem round4_zero : round4 0 = 0 := by
  simp [round4, roundHalfEven]

/-- Rounding to 4 places fixes 1. -/
theorem round4_one : round4 1 = 1 := by
  simp [round4, roundHalfEven]

/-- Claim C6 counterexample: on this miss the full merged result holds two
entries, but the value written to the cache is the single-entry list
already truncated to `limit = 1` — not the untruncated merged result the
claim requires. -/
theorem c6_counterexample :
    (getRecs c6H 1).2 = some [{ media_id := "a", score := 1, reason := "users_like_you" }] ∧
    formatResults (mergedOrFallback c6H 1) =
      [{ media_id := "a", score := 1, reason := "users_like_you" },
       { media_id := "b", score := 0, reason := "users_like_you" }] ∧
    ((some [{ media_id := "a", score := 1, reason := "users_like_you" }] :
        Option (List RecOut)) =
      some [{ media_id := "a", score := 1, reason := "users_like_you" },
            { media_id := "b", score := 0, reason := "users_like_you" }]) = False := by
  refine ⟨?_, ?_, by simp⟩
  · norm_num +decide [getRecs, mergedOrFallback, mergedList, cfResults, cbResults,
      mergeScores, normalizeScores, listMin, listMax, lastVal, dedupKeepFirst,
      sortDescBy, List.insertionSort, List.orderedInsert, formatResults,
      popularityFallback, round4_zero, round4_one, c6H]
  · norm_num +decide [mergedOrFallback, mergedList, cfResults, cbResults,
      mergeScores, normalizeScores, listMin, listMax, lastVal, dedupKeepFirst,
      sortDescBy, List.insertionSort, List.orderedInsert, formatResults,
      popularityFallback, round4_zero, round4_one, c6H]

/-! Claim C7: further rounding and sorting lemmas, then the popularity
fallback. -/

theorem le_roundHalfEven (q : ℚ) : ⌊q⌋ ≤ roundHalfEven q := by
  rw [roundHalfEven]
  split_ifs <;> omega

theorem roundHalfEven_le (q : ℚ) : roundHalfEven q ≤ ⌊q⌋ + 1 := by
  rw [roundHalfEven]
  split_ifs <;> omega

theorem roundHalfEven_mono {q r : ℚ} (h : q ≤ r) :
    roundHalfEven q ≤ roundHalfEven r := by
  have hf : ⌊q⌋ ≤ ⌊r⌋ := Int.floor_le_floor h
  rcases lt_or_eq_of_le hf with hlt | heq
  · calc roundHalfEven q ≤ ⌊q⌋ + 1 := roundHalfEven_le q
      _ ≤ ⌊r⌋ := by omega
      _ ≤ roundHalfEven r := le_roundHalfEven r
  · have hrn : ⌊r⌋ = ⌊q⌋ := heq.symm
    have hfr : q - ⌊q⌋ ≤ r - ⌊q⌋ := by linarith
    rw [roundHalfEven, roundHalfEven, hrn]
    by_cases h1 : q - ⌊q⌋ < 1/2
    · rw [if_pos h1]
      split_ifs <;> omega
    · have h1' : 1/2 ≤ q - ⌊q⌋ := not_lt.mp h1
      have hr1 : ¬(r - (⌊q⌋ : ℚ) < 1/2) := not_lt.mpr (le_trans h1' hfr)
      rw [if_neg h1, if_neg hr1]
      by_cases h2 : 1/2 < q - ⌊q⌋
      · have hr2 : 1/2 < r - (⌊q⌋ : ℚ) := lt_of_lt_of_le h2 hfr
        rw [if_pos h2, if_pos hr2]
      · rw [if_neg h2]
        by_cases hr2 : 1/2 < r - (⌊q⌋ : ℚ)
        · rw [if_pos hr2]
          split_ifs <;> omega
        · rw [if_neg hr2]

theorem round4_mono {q r : ℚ} (h : q ≤ r) : round4 q ≤ round4 r := by
  rw [round4, round4]
  have hm : roundHalfEven (q * 10000) ≤ roundHalfEven (r * 10000) :=
    roundHalfEven_mono (by linarith)
  have hm' : ((roundHalfEven (q * 10000) : ℚ)) ≤ (roundHalfEven (r * 10000) : ℚ) := by
    exact_mod_cast hm
  gcongr

theorem round4_nonneg {q : ℚ} (h : 0 ≤ q) : 0 ≤ round4 q := by
  rw [← round4_zero]
  exact round4_mono h

theorem round4_le_one {q : ℚ} (h : q ≤ 1) : round4 q ≤ 1 := by
  rw [← round4_one]
  exact round4_mono h

/-- Head of a descending sort carries the largest key. -/
theorem sortDescBy_head_max {α β : Type} [LinearOrder β] (key : α → β)
    (l : List α) (a : α) (t : List α) (h : sortDescBy key l = a :: t) :
    ∀ q ∈ l, key q ≤ key a := by
  intro q hq
  have hqs : q ∈ sortDescBy key l := (sortDescBy_perm key l).symm.subset hq
  rw [h] at hqs
  rcases List.mem_cons.mp hqs with rfl | hqt
  · exact le_refl _
  · have hpw := pairwise_sortDescBy key l
    rw [h] at hpw
    exact (List.pairwise_cons.mp hpw).1 q hqt

/-- Inversion of membership in the popularity fallback: every emitted
entry comes from an un-watched rated item, is tagged "popular", is scored
by the top-rating normalization, and its rating is bounded by the top
rating. -/
theorem popularityFallback_inv {metadata : List (String × Option ℚ)}
    {watched : List String} {limit : ℕ} {p : String × ℚ × String}
    (hp : p ∈ popularityFallback metadata watched limit) :
    ∃ p0 tail,
      sortDescBy (fun x => x.2) (ratedItems metadata watched) = p0 :: tail ∧
      ∃ s ∈ ratedItems metadata watched,
        p = (s.1, round4 (s.2 / (if 0 < p0.2 then p0.2 else 1)), "popular") ∧
        s.2 ≤ p0.2 := by
  rw [popularityFallback] at hp
  split at hp
  · cases hp
  · split at hp
    · cases hp
    · rename_i p0 tail heq
      obtain ⟨s, hs, hps⟩ := List.mem_map.mp hp
      have hsmem : s ∈ ratedItems metadata watched := by
        have hcons : s ∈ p0 :: tail := List.take_subset _ _ hs
        rw [← heq] at hcons
        exact (sortDescBy_perm _ _).subset hcons
      exact ⟨p0, tail, heq, s, hsmem, hps.symm,
        sortDescBy_head_max _ _ _ _ heq s hsmem⟩

/-- Claim C7 (amended): whenever the merged list is empty and the catalog
metadata is non-empty, get_recommendations returns the popularity fallback
truncated to `limit`: the un-watched catalog items ranked by community
rating descending (an absent rating ranking as 0), each tagged "popular"
and scored by dividing its rating by the top rating when that is positive
and by 1 otherwise — which lands every score in [0, 1] whenever the catalog
ratings are nonnegative (a negative top rating is returned unnormalized);
in particular a user with no interactions and no watch history receives,
for a positive limit, a non-empty result entirely tagged "popular". -/
theorem c7_popularity_fallback (H : HybridIn) (limit : ℕ) :
    (H.cached = none → mergedList H limit = [] →
      (getRecs H limit).1 =
        formatResults ((popularityFallback H.metadata H.watched limit).take limit)) ∧
    (∀ p ∈ popularityFallback H.metadata H.watched limit, p.2.2 = "popular") ∧
    (∀ p ∈ popularityFallback H.metadata H.watched limit,
      p.1 ∉ H.watched ∧ p.1 ∈ H.metadata.map (fun q => q.1)) ∧
    List.Pairwise (fun a b => b.2.1 ≤ a.2.1)
      (popularityFallback H.metadata H.watched limit) ∧
    ((∀ q ∈ H.metadata, 0 ≤ q.2.getD 0) →
      ∀ p ∈ popularityFallback H.metadata H.watched limit,
        0 ≤ p.2.1 ∧ p.2.1 ≤ 1) ∧
    (H.cached = none → H.watched = [] → cfResults H limit = [] →
      H.metadata ≠ [] → 1 ≤ limit →
      (getRecs H limit).1 ≠ [] ∧
      ∀ p ∈ (getRecs H limit).1, p.reason = "popular") := by
  have hlink : H.cached = none → mergedList H limit = [] →
      (getRecs H limit).1 =
        formatResults ((popularityFallback H.metadata H.watched limit).take limit) := by
    intro hc hm
    rw [getRecs, hc]
    show formatResults ((mergedOrFallback H limit).take limit) = _
    rw [mergedOrFallback, if_pos hm]
  have hreason : ∀ p ∈ popularityFallback H.metadata H.watched limit,
      p.2.2 = "popular" := by
    intro p hp
    obtain ⟨p0, tail, heq, s, hsmem, rfl, hsle⟩ := popularityFallback_inv hp
    rfl
  refine ⟨hlink, hreason, ?_, ?_, ?_, ?_⟩
  · intro p hp
    obtain ⟨p0, tail, heq, s, hsmem, rfl, hsle⟩ := popularityFallback_inv hp
    rw [ratedItems] at hsmem
    obtain ⟨q, hq, hsq⟩ := List.mem_map.mp hsmem
    obtain ⟨hqm, hqw⟩ := List.mem_filter.mp hq
    have hq1 : s.1 = q.1 := by rw [← hsq]
    refine ⟨?_, ?_⟩
    · show s.1 ∉ H.watched
      rw [hq1]
      exact of_decide_eq_true hqw
    · show s.1 ∈ H.metadata.map (fun r => r.1)
      rw [hq1]
      exact List.mem_map_of_mem _ hqm
  · rw [popularityFallback]
    split
    · exact List.Pairwise.nil
    · split
      · exact List.Pairwise.nil
      · rename_i p0 tail heq
        have hd : (0:ℚ) < (if 0 < p0.2 then p0.2 else 1) := by
          split
          · assumption
          · exact one_pos
        have hpw : List.Pairwise (fun a b => (b : String × ℚ).2 ≤ a.2)
            (p0 :: tail) := by
          rw [← heq]
          exact pairwise_sortDescBy _ _
        have htake := hpw.sublist (List.take_sublist limit _)
        refine htake.map _ ?_
        intro a b hab
        show round4 (b.2 / _) ≤ round4 (a.2 / _)
        exact round4_mono ((div_le_div_iff_of_pos_right hd).mpr hab)
  · intro hnn p hp
    obtain ⟨p0, tail, heq, s, hsmem, rfl, hsle⟩ := popularityFallback_inv hp
    have hs0 : 0 ≤ s.2 := by
      rw [ratedItems] at hsmem
      obtain ⟨q, hq, hsq⟩ := List.mem_map.mp hsmem
      have := hnn q (List.mem_filter.mp hq).1
      rw [← hsq]
      exact this
    show 0 ≤ round4 (s.2 / (if 0 < p0.2 then p0.2 else 1)) ∧
      round4 (s.2 / (if 0 < p0.2 then p0.2 else 1)) ≤ 1
    by_cases hpos : 0 < p0.2
    · rw [if_pos hpos]
      exact ⟨round4_nonneg (div_nonneg hs0 hpos.le),
        round4_le_one ((div_le_one hpos).mpr hsle)⟩
    · have hs20 : s.2 = 0 := le_antisymm (hsle.trans (not_lt.mp hpos)) hs0
      rw [if_neg hpos, hs20, zero_div, round4_zero]
      exact ⟨le_refl 0, zero_le_one⟩
  · intro hc hw hcf hm hl
    have hcb : cbResults H limit = [] := by
      rw [cbResults, if_neg]
      simp [hw]
    have hmerged : mergedList H limit = [] := by
      rw [mergedList, hcf, hcb]
      rfl
    have hres := hlink hc hmerged
    have hrated : ratedItems H.metadata H.watched = H.metadata.map
        (fun p => (p.1, p.2.getD 0)) := by
      rw [ratedItems, hw]
      simp
    have hratedne : ratedItems H.metadata H.watched ≠ [] := by
      rw [hrated]
      simpa using hm
    have hsortne : sortDescBy (fun x => (x : String × ℚ).2)
        (ratedItems H.metadata H.watched) ≠ [] := by
      intro hcon
      have := (sortDescBy_perm (fun x => (x : String × ℚ).2)
        (ratedItems H.metadata H.watched)).length_eq
      rw [hcon] at this
      exact hratedne (List.length_eq_zero.mp this.symm)
    rcases hsort : sortDescBy (fun x => (x : String × ℚ).2)
        (ratedItems H.metadata H.watched) with _ | ⟨p0, tail⟩
    · exact absurd hsort hsortne
    · have hfall : popularityFallback H.metadata H.watched limit =
          ((p0 :: tail).take limit).map
            (fun p => (p.1, round4 (p.2 / (if 0 < p0.2 then p0.2 else 1)),
              "popular")) := by
        rw [popularityFallback, if_neg hm, hsort]
      rcases limit with _ | k
      · omega
      · have hfallne : popularityFallback H.metadata H.watched (k + 1) ≠ [] := by
          rw [hfall, List.take_succ_cons]
          simp
        constructor
        · rw [hres]
          intro hcon
          rcases hfcons : popularityFallback H.metadata H.watched (k + 1)
            with _ | ⟨f0, frest⟩
          · exact hfallne hfcons
          · rw [hfcons, List.take_succ_cons] at hcon
            simp [formatResults] at hcon
        · intro p hp
          rw [hres] at hp
          rw [formatResults] at hp
          obtain ⟨t, ht, rfl⟩ := List.mem_map.mp hp
          have htf : t ∈ popularityFallback H.metadata H.watched (k + 1) :=
            List.take_subset _ _ ht
          exact hreason t htf

/-- Rounding to 4 places fixes -1. -/
theorem round4_neg_one : round4 (-1) = -1 := by
  simp [round4, roundHalfEven]
  norm_num [Int.fract]

/-- Hybrid input of the counterexample: a cold-start miss whose only
catalog item carries the community rating -1. -/
def c7H : HybridIn :=
  { cached := none
    cfReady := false
    cfPredict := fun _ => []
    cbReady := false
    watched := []
    cbRecommend := fun _ _ => []
    metadata := [("a", some (-1))]
    cfW := 1
    cbW := 0 }

/-- Claim C7 counterexample: with a single catalog item rated -1, the top
rating is not positive, so the code divides by 1 and returns the raw score
-1, tagged "popular" — not a value in [0, 1], and not the value 1 that
dividing -1 by the top rating -1 would give. -/
theorem c7_counterexample :
    (getRecs c7H 1).1 = [{ media_id := "a", score := -1, reason := "popular" }] ∧
    ((0:ℚ) ≤ -1) = False := by
  refine ⟨?_, by norm_num⟩
  norm_num +decide [getRecs, mergedOrFallback, mergedList, cfResults, cbResults,
    mergeScores, normalizeScores, listMin, listMax, lastVal, dedupKeepFirst,
    sortDescBy, List.insertionSort, List.orderedInsert, formatResults,
    popularityFallback, ratedItems, c7H, round4_neg_one]

end RecEngine
